import Mathlib

/-!
Verification of the `gwlearn` geographically-weighted classifier core
(`gwlearn/base.py`) against its natural-language specification.

The Python source is shallowly embedded below: numeric values are modelled
as rationals (`ℚ`), a NumPy/pandas "NaN" cell as `Option ℚ` with `none` for
NaN, and fallible pandas operations (`.loc` with missing labels, strict
`zip`, error raises) as `Except`.  The underlying scikit-learn estimator is
an opaque deterministic parameter (`fit` + `predict_proba` fused into a
function from the local training slice and the focal feature row to a
probability vector), matching how the source treats of the model class as
a pluggable black box with a fixed `random_state`.
-/

namespace Gwlearn

/-- `_boxcar` kernel (base.py lines 52-54): `(distances < bandwidth).astype(int)`. -/
def _boxcar (distance bandwidth : ℚ) : ℚ :=
  if distance < bandwidth then 1 else 0

/-- `_is_binary` inside `BaseClassifier.fit` (base.py lines 196-205): the set of
unique values of `y` must be a subset of `{True, False}` or of `{0, 1}`; since
in Python `True == 1` and `False == 0`, both subset tests coincide with "every
value is 0 or 1", which is how the check is embedded here (booleans are
modelled by their numeric values). -/
def _is_binary (y : List ℚ) : Bool :=
  y.all (fun v => decide (v = 0) || decide (v = 1))

/-- One training row of a focal neighborhood: a feature vector, the target
value (`_y` column) and the kernel weight (`_weight` column), as assembled at
the top of `_batch_fit` (base.py lines 357-360). -/
structure GroupRow where
  x : List ℚ
  yv : ℚ
  w : ℚ

deriving instance DecidableEq for GroupRow

/-- Descending insertion sort, modelling the count ordering of
`pandas.Series.value_counts()` (largest count first). -/
def sortDesc (l : List ℕ) : List ℕ :=
  List.insertionSort (· ≥ ·) l

/-- The descending list of label counts of `y` in a neighborhood:
`data["_y"].value_counts()` in `_fit_local` (base.py line 418), reduced to its
counts (the claims only consume `vc.iloc[0]`, `vc.iloc[1]` and `len(vc)`). -/
def labelCounts (ys : List ℚ) : List ℕ :=
  sortDesc (ys.dedup.map (fun v => ys.count v))

/-- `vc.iloc[1] / vc.iloc[0]` (base.py line 422): second-largest label count
over largest label count, i.e. minority/majority ratio for a binary target. -/
def minorMajorRatio (ys : List ℚ) : ℚ :=
  ((labelCounts ys).getD 1 0 : ℕ) / (((labelCounts ys).getD 0 0 : ℕ) : ℚ)

/-- The skip decision of `_fit_local` (base.py lines 418-423):
`skip = n_labels == 1`; `if n_labels > 1: skip = vc.iloc[1]/vc.iloc[0] < min_proportion`. -/
def skipDecision (minp : ℚ) (ys : List ℚ) : Bool :=
  let n_labels := ys.dedup.length
  if n_labels == 1 then true
  else if 1 < n_labels then decide (minorMajorRatio ys < minp)
  else false

/-- The slice of a per-focal training output relevant to the claims: the group
name, the neighborhood label count, whether a local model was fitted (`false`
means the skip placeholder of base.py lines 423-452 was emitted), and the
focal-point probability row (`none` = the all-NaN placeholder
`pd.Series(np.nan, index=self._global_classes)`). -/
structure LocalRecord where
  name : ℕ
  n_labels : ℕ
  fitted : Bool
  focal_proba : Option (List ℚ)

deriving instance DecidableEq for LocalRecord

/-- `_fit_local` (base.py lines 386-521), with the external estimator
abstracted into the deterministic parameter `E` (its inputs — the local data
slice including kernel weights, and the focal feature row — are exactly what
the source feeds into `model.fit` / `predict_proba(focal_x)`). -/
def _fit_local (minp : ℚ) (E : List GroupRow → List ℚ → List ℚ) (name : ℕ)
    (grp : List GroupRow) (focal_x : List ℚ) : LocalRecord :=
  let ys := grp.map GroupRow.yv
  if skipDecision minp ys then
    ⟨name, ys.dedup.length, false, none⟩
  else
    ⟨name, ys.dedup.length, true, some (E grp focal_x)⟩

/-- Fit-time adaptive bandwidth derivation (base.py line 226):
`weights._adjacency.groupby(level=0).transform("max")` over the (focal,
distance) adjacency — each row receives the maximum distance of its focal
group, with NO epsilon added.  Groups are nonempty in the source, so folding
`max` from `0` agrees with the group maximum for the (nonnegative) distances
produced by a spatial index. -/
def groupMaxAt (rows : List (ℕ × ℚ)) (f : ℕ) : ℚ :=
  ((rows.filter (fun r => r.1 == f)).map Prod.snd).foldr max 0

/-- Fit-time per-row adaptive kernel bandwidth (base.py lines 220-230). -/
def adaptiveFitBandwidth (rows : List (ℕ × ℚ)) : List ℚ :=
  rows.map (fun r => groupMaxAt rows r.1)

/-- Predict-time per-row adaptive kernel bandwidth (base.py lines 571-576):
`pd.Series(distances).groupby(input_ids).transform("max") + 1e-6  # cannot have 0`. -/
def adaptiveQueryBandwidth (rows : List (ℕ × ℚ)) : List ℚ :=
  rows.map (fun r => groupMaxAt rows r.1 + 1 / 1000000)

/-- The probability row a neighbor contributes inside `_predict_proba`
(base.py lines 605-624): a fitted model yields its probability vector, a
`None` (skipped) model yields the all-NaN row
`pd.Series(np.nan, index=self._global_classes)` over the `gc` global classes. -/
def predRow (gc : ℕ) (m : Option (List ℚ)) : List (Option ℚ) :=
  match m with
  | none => List.replicate gc none
  | some ps => ps.map some

/-- `pred.isna().any(axis=1)` for one row (base.py line 627). -/
def rowHasMissing (r : List (Option ℚ)) : Bool :=
  r.any (fun c => c.isNone)

/-- `BaseClassifier._predict_proba` (base.py lines 596-635) for one query
point.  `models` holds the prediction of each neighbor (`none` = skipped
placeholder model), `ws` the kernel weights (`distances_`).  Rows with a
missing entry are masked out; if every row is masked the all-missing row is
returned (in the source the zero-neighbor case returns an empty row which the
`pd.DataFrame(..., columns=self._global_classes)` re-aligns to the
`gc` global classes — that re-alignment is folded in here); otherwise
`np.average(pred[~mask], axis=0, weights=distances_[~mask])` is computed and
divided by its own sum. -/
def _predict_proba (gc : ℕ) (models : List (Option (List ℚ))) (ws : List ℚ) :
    List (Option ℚ) :=
  let pred := models.map (predRow gc)
  let kept := (pred.zip ws).filter (fun q => !rowHasMissing q.1)
  if kept.isEmpty then List.replicate gc none
  else
    let wsum := (kept.map Prod.snd).sum
    let avg := (List.range gc).map
      (fun j => (kept.map (fun q => q.2 * ((q.1.getD j none).getD 0))).sum / wsum)
    avg.map (fun v => some (v / avg.sum))

/-- Transcription of the specification sentence for `_predict_proba` ("drop
neighbor rows that are entirely missing"): the surviving rows are exactly the
probability vectors of non-placeholder neighbor models, paired with their
kernel weights. -/
def survivingRows (models : List (Option (List ℚ))) (ws : List ℚ) :
    List (List ℚ × ℚ) :=
  (models.zip ws).filterMap (fun p => p.1.map (fun ps => (ps, p.2)))

/-- Transcription of the specification sentence "kernel-weighted elementwise
average of remaining rows (weights = kernel weight of each surviving
neighbor)". -/
def weightedAvgRow (gc : ℕ) (surv : List (List ℚ × ℚ)) : List ℚ :=
  (List.range gc).map
    (fun j => (surv.map (fun pw => pw.2 * pw.1.getD j 0)).sum / (surv.map Prod.snd).sum)

/-- `pandas.DataFrame.idxmax(axis=1)` on one probability row, as used by
`BaseClassifier.predict` (base.py lines 637-640): NaN cells are skipped, the
first position attaining the maximum wins, and an all-NaN row yields NaN
(modelled as `none`). -/
def idxmaxAux : List (Option ℚ) → ℕ → Option (ℚ × ℕ) → Option (ℚ × ℕ)
  | [], _, best => best
  | none :: rest, k, best => idxmaxAux rest (k + 1) best
  | some v :: rest, k, best =>
    match best with
    | none => idxmaxAux rest (k + 1) (some (v, k))
    | some (bv, bi) =>
      if bv < v then idxmaxAux rest (k + 1) (some (v, k))
      else idxmaxAux rest (k + 1) (some (bv, bi))

/-- `predict` reduced to one row: arg-max column of the probability row. -/
def idxmaxRow (row : List (Option ℚ)) : Option ℕ :=
  (idxmaxAux row 0 none).map Prod.snd

/-- `np.split(xs, np.where(np.diff(ids))[0] + 1)` over aligned lists: split
`xs` at every position where the id changes (base.py lines 578-580).  NumPy
yields one chunk more than there are split points, so the empty input gives
one empty chunk. -/
def runSplitAux {α : Type} : List (ℕ × α) → List (List α)
  | [] => [[]]
  | [(_, x)] => [[x]]
  | (i, x) :: (j, y) :: rest =>
    let r := runSplitAux ((j, y) :: rest)
    if i == j then (x :: r.headD []) :: r.tail
    else [x] :: r

/-- `np.split` of `xs` grouped by runs of equal `ids` (the two lists are
aligned and of equal length in the source). -/
def npSplitRuns {α : Type} (ids : List ℕ) (xs : List α) : List (List α) :=
  runSplitAux (ids.zip xs)

/-- Number of chunks `np.split` produces for a given id column. -/
def runsLen : List ℕ → ℕ
  | [] => 1
  | [_] => 1
  | i :: j :: rest => (if i == j then 0 else 1) + runsLen (j :: rest)

/-- Errors surfaced by `predict_proba` / `predict`.
`attributeMissing a` models the Python `AttributeError` on a fitted attribute
`a` that `fit` never assigned; `zipStrictMismatch` models the `ValueError` of
`zip(..., strict=True)` (base.py line 584); `predictionUnsupported` is the
dedicated "prediction is unsupported without kept models" error demanded by
the specification — the source never raises it, which is what claim C8 is
about. -/
inductive PredictError where
  | attributeMissing (attr : String)
  | zipStrictMismatch
  | predictionUnsupported

deriving instance DecidableEq for PredictError

/-- The prediction-relevant attributes `fit` may or may not have assigned:
`self.local_models` as a lookup from a local model id to a fitted model
(`none` entries are the `None` placeholders of skipped models; a fitted model
is its `predict_proba` on a single feature row) and `self._geometry`
(base.py lines 265-286; only its presence matters here). -/
structure FittedState where
  local_models : Option (ℕ → Option (List ℚ → List ℚ))
  geometryStored : Bool

/-- The attribute assignment of `fit` depending on `keep_models` (base.py lines
265-286): the `keep_models=False` branch assigns neither `self.local_models`
nor `self._geometry`. -/
def fitAttrs (keep_models : Bool) (models : ℕ → Option (List ℚ → List ℚ)) :
    FittedState :=
  if keep_models then ⟨some models, true⟩ else ⟨none, false⟩

/-- Effectful list map over `Except` (explicit recursion so proofs can unfold
it). -/
def mapE {α β ε : Type} (f : α → Except ε β) : List α → Except ε (List β)
  | [] => Except.ok []
  | a :: as =>
    match f a, mapE f as with
    | Except.error e, _ => Except.error e
    | Except.ok _, Except.error e => Except.error e
    | Except.ok b, Except.ok bs => Except.ok (b :: bs)

/-- The per-query-point body of the `predict_proba` loop (base.py lines
583-592 plus `_predict_proba`): each neighbor id is resolved through
`self.local_models` (an `AttributeError` if `fit` never assigned it), its
model applied to the query features, and the rows combined by
`_predict_proba`. -/
def predictRowM (lm : Option (ℕ → Option (List ℚ → List ℚ))) (gc : ℕ)
    (x : List ℚ) (ms : List ℕ) (ds : List ℚ) :
    Except PredictError (List (Option ℚ)) :=
  match mapE (fun i =>
      match lm with
      | none => Except.error (PredictError.attributeMissing "local_models")
      | some store => Except.ok ((store i).map (fun f => f x))) ms with
  | Except.error e => Except.error e
  | Except.ok preds => Except.ok (_predict_proba gc preds ds)

/-- `BaseClassifier.predict_proba`, fixed-bandwidth path (base.py lines
545-594) after the external spatial-index query: `input_ids`, `local_ids` and
`dists` are the flattened query-hit triples (sorted by query point, kernel
weights already applied to `dists`), `Xq` the query feature rows.  Accessing
`self._geometry` (line 550) comes first and raises `AttributeError` when
`fit` did not keep models; then the hits are split at query-id changes and
zipped strictly against the query rows. -/
def predict_proba_top (st : FittedState) (gc : ℕ) (Xq : List (List ℚ))
    (input_ids local_ids : List ℕ) (dists : List ℚ) :
    Except PredictError (List (List (Option ℚ))) :=
  if st.geometryStored = false then
    Except.error (PredictError.attributeMissing "_geometry")
  else
    let chunksM := npSplitRuns input_ids local_ids
    let chunksD := npSplitRuns input_ids dists
    if chunksM.length = Xq.length then
      mapE (fun p => predictRowM st.local_models gc p.1 p.2.1 p.2.2)
        (Xq.zip (chunksM.zip chunksD))
    else Except.error PredictError.zipStrictMismatch

/-- One row of the neighborhood adjacency `weights._adjacency`: a focal
label (level 0 of the MultiIndex), a neighbor label (level 1, a row label of
`X`/`y`) and a kernel weight (the Series value). -/
structure AdjRow where
  focal : ℕ
  neighbor : ℕ
  weight : ℚ

deriving instance DecidableEq for AdjRow

/-- Errors raised during `fit`.  `nonBinaryError` is the
"Only binary dependent variable is supported." `ValueError` (base.py line
213); `invariantError fs` the strict-mode "y at locations ... is invariant."
`ValueError` (base.py lines 365-368) carrying the listed focal labels;
`keyError` the pandas `KeyError` raised by `.loc` when a requested label is
absent from the index (base.py line 250). -/
inductive FitError where
  | nonBinaryError
  | invariantError (focals : List ℕ)
  | keyError

deriving instance DecidableEq for FitError

/-- Concatenated map over labels (explicit recursion for proof control). -/
def catMap {α : Type} (f : ℕ → List α) : List ℕ → List α
  | [] => []
  | l :: ls => f l ++ catMap f ls

/-- Row lookup `data.loc[neighbor]` with the `_y` and `_weight` columns
attached (base.py lines 357-360); `X`/`y` carry the default range index, so
labels are positions. -/
def mkRow (X : List (List ℚ)) (y : List ℚ) (nb : ℕ) (w : ℚ) : GroupRow :=
  ⟨X.getD nb [], y.getD nb 0, w⟩

/-- The assembled per-row training table of `_batch_fit`, tagged with the
focal label (level 0 of `index`): `data = X.loc[index.get_level_values(1)]`
with `_y` and `_weight` columns (base.py lines 357-360). -/
def tagRows (X : List (List ℚ)) (y : List ℚ) (idx : List (ℕ × ℕ))
    (ws : List ℚ) : List (ℕ × GroupRow) :=
  (idx.zip ws).map (fun p => (p.1.1, mkRow X y p.1.2 p.2))

/-- The sorted distinct focal labels — `pandas.groupby` sorts group keys
ascending (base.py line 361). -/
def groupKeys (tagged : List (ℕ × GroupRow)) : List ℕ :=
  List.insertionSort (· ≤ ·) ((tagged.map Prod.fst).dedup)

/-- The rows of one focal group, in stored order (`groupby` preserves the
within-group order). -/
def groupOf (tagged : List (ℕ × GroupRow)) (f : ℕ) : List GroupRow :=
  (tagged.filter (fun r => r.1 == f)).map Prod.snd

/-- `data["_y"].groupby(level0).nunique() == 1` restricted to the labels
where it holds — the focal labels reported by the strict/warning invariant
message (base.py lines 363-373). -/
def invariantFocals (tagged : List (ℕ × GroupRow)) : List ℕ :=
  (groupKeys tagged).filter
    (fun f => ((groupOf tagged f).map GroupRow.yv).dedup.length == 1)

/-- `BaseClassifier._batch_fit` (base.py lines 328-384): assemble the tagged
training table, raise on invariant neighborhoods when `strict=True`
(`strict` is `Option Bool`: `some true`/`none`/`some false` model
`True`/`None`/`False`; the `None` warning branch does not alter the output),
then map `_fit_local` over the groups zipped (`strict=False`, i.e.
truncating) against the focal feature rows. -/
def _batch_fit (strict : Option Bool) (minp : ℚ)
    (E : List GroupRow → List ℚ → List ℚ) (X : List (List ℚ)) (y : List ℚ)
    (idx : List (ℕ × ℕ)) (ws : List ℚ) (X_focals : List (List ℚ)) :
    Except FitError (List LocalRecord) :=
  let tagged := tagRows X y idx ws
  if strict = some true ∧ invariantFocals tagged ≠ [] then
    Except.error (FitError.invariantError (invariantFocals tagged))
  else
    Except.ok
      ((((groupKeys tagged).map (fun f => (f, groupOf tagged f))).zip X_focals).map
        (fun p => _fit_local minp E p.1.1 p.1.2 p.2))

/-- `weights._adjacency.loc[batch_indices, :]` (base.py line 250): select the
adjacency rows of the requested level-0 labels, blocks ordered as requested;
pandas raises `KeyError` if any requested label is absent from the index. -/
def locFocal (adj : List AdjRow) (labels : List ℕ) :
    Except FitError (List AdjRow) :=
  if labels.all (fun l => adj.any (fun r => r.focal == l)) then
    Except.ok (catMap (fun l => adj.filter (fun r => r.focal == l)) labels)
  else Except.error FitError.keyError

/-- The successive `indices[i : i + batch_size]` slices of
`for i in range(0, num_groups, batch_size)` (base.py lines 241-249), via a
fuel argument (one batch consumes at least one element when `0 < b`). -/
def chunkFuel (b : ℕ) : ℕ → List ℕ → List (List ℕ)
  | 0, _ => []
  | _ + 1, [] => []
  | fuel + 1, a :: as => (a :: as).take b :: chunkFuel b fuel ((a :: as).drop b)

/-- All batch index slices over `num_groups` focal positions. -/
def chunkList (b : ℕ) (l : List ℕ) : List (List ℕ) :=
  chunkFuel b l.length l

/-- The batched fitting loop (base.py lines 238-257) as a trace: the list of
per-focal records produced so far (batch outputs are `extend`ed in order)
and, if a batch raised, the error that aborted the loop.  Records of batches
that completed before the aborting batch HAVE been produced (their local
models were fitted) even though the exception discards the local variable. -/
def runBatches (strict : Option Bool) (minp : ℚ)
    (E : List GroupRow → List ℚ → List ℚ) (X : List (List ℚ)) (y : List ℚ)
    (adj : List AdjRow) : List (List ℕ) → List LocalRecord × Option FitError
  | [] => ([], none)
  | bi :: rest =>
    match locFocal adj bi with
    | Except.error e => ([], some e)
    | Except.ok sub =>
      match _batch_fit strict minp E X y (sub.map (fun r => (r.focal, r.neighbor)))
          (sub.map AdjRow.weight) (bi.map (fun j => X.getD j [])) with
      | Except.error e => ([], some e)
      | Except.ok out =>
        let tail := runBatches strict minp E X y adj rest
        (out ++ tail.1, tail.2)

/-- `BaseClassifier.fit` (base.py lines 181-263) reduced to the scope of the claims, as a trace of (records fitted so far, aborting error): the binary
check on `y` (line 212), then — `if self.batch_size:` being Python
truthiness, `some 0` falls through to the unbatched branch — either the
batched loop over `indices = np.arange(num_groups)` (`num_groups =
len(geometry) = len(X)` here, geometry and `X` being aligned) or a single
`_batch_fit` over the whole adjacency with `X_focals = X.values`.  The
adjacency `adj` is the externally built `weights._adjacency`
(graph construction is the external `libpysal` collaborator). -/
def fitTrace (strict : Option Bool) (minp : ℚ)
    (E : List GroupRow → List ℚ → List ℚ) (batch_size : Option ℕ)
    (X : List (List ℚ)) (y : List ℚ) (adj : List AdjRow) :
    List LocalRecord × Option FitError :=
  if !(_is_binary y) then ([], some FitError.nonBinaryError)
  else if batch_size.getD 0 = 0 then
    match _batch_fit strict minp E X y (adj.map (fun r => (r.focal, r.neighbor)))
        (adj.map AdjRow.weight) X with
    | Except.error e => ([], some e)
    | Except.ok out => (out, none)
  else
    runBatches strict minp E X y adj (chunkList (batch_size.getD 0) (List.range X.length))

/-- The caller-visible result of `fit`: the per-focal records on success, the
raised error otherwise (on error the partially accumulated records are discarded by the
exception). -/
def fitRecords (strict : Option Bool) (minp : ℚ)
    (E : List GroupRow → List ℚ → List ℚ) (batch_size : Option ℕ)
    (X : List (List ℚ)) (y : List ℚ) (adj : List AdjRow) :
    Except FitError (List LocalRecord) :=
  match fitTrace strict minp E batch_size X y adj with
  | (_, some e) => Except.error e
  | (recs, none) => Except.ok recs

/-- A concrete opaque estimator used by witnesses and counterexamples. -/
def constModel : List GroupRow → List ℚ → List ℚ :=
  fun _ _ => [1, 1]

/-- The training slice of one focal label, as derived from the adjacency:
the adjacency rows of that focal, each resolved through `X`/`y` with its
kernel weight (the group that `groupby(level=0)` hands to `_fit_local`). -/
def adjGroup (X : List (List ℚ)) (y : List ℚ) (adj : List AdjRow) (f : ℕ) :
    List GroupRow :=
  (adj.filter (fun r => r.focal == f)).map (fun r => mkRow X y r.neighbor r.weight)

/-- The per-focal record `fit` produces for focal label `f` (its group data
and focal feature row are functions of the adjacency alone, independent of
any batching). -/
def focalRecord (minp : ℚ) (E : List GroupRow → List ℚ → List ℚ)
    (X : List (List ℚ)) (y : List ℚ) (adj : List AdjRow) (f : ℕ) :
    LocalRecord :=
  _fit_local minp E f (adjGroup X y adj f) (X.getD f [])

/-- Whether the neighborhood target of focal `f` is invariant (single distinct
`y` value). -/
def invariantAt (X : List (List ℚ)) (y : List ℚ) (adj : List AdjRow)
    (f : ℕ) : Bool :=
  ((adjGroup X y adj f).map GroupRow.yv).dedup.length == 1

/-! ## Helper lemmas -/

theorem foldr_max_nonneg (l : List ℚ) : 0 ≤ l.foldr max 0 := by
  induction l with
  | nil => simp
  | cons a l ih => exact le_max_of_le_right ih

theorem sum_map_div (l : List ℚ) (c : ℚ) :
    (l.map (fun v => v / c)).sum = l.sum / c := by
  simp only [div_eq_mul_inv]
  simpa using List.sum_map_mul_right l id c⁻¹

theorem getD_map_some (ps : List ℚ) (j : ℕ) :
    ((ps.map some).getD j none).getD 0 = ps.getD j 0 := by
  induction ps generalizing j with
  | nil => simp
  | cons p ps ih =>
    cases j with
    | zero => simp
    | succ j => simpa using ih j

theorem rowHasMissing_predRow_none (gc : ℕ) (h : 0 < gc) :
    rowHasMissing (predRow gc none) = true := by
  cases gc with
  | zero => omega
  | succ n => simp [rowHasMissing, predRow, List.replicate_succ]

theorem rowHasMissing_predRow_some (gc : ℕ) (ps : List ℚ) :
    rowHasMissing (predRow gc (some ps)) = false := by
  simp [rowHasMissing, predRow, List.any_map, Function.comp_def]

theorem kept_eq_surviving (gc : ℕ) (hgc : 0 < gc) :
    ∀ (models : List (Option (List ℚ))) (ws : List ℚ),
      ((models.map (predRow gc)).zip ws).filter (fun q => !rowHasMissing q.1) =
        (survivingRows models ws).map (fun s => (s.1.map some, s.2))
  | [], ws => by simp [survivingRows]
  | m :: ms, [] => by simp [survivingRows]
  | none :: ms, w :: ws => by
    simp only [List.map_cons, List.zip_cons_cons, List.filter_cons,
      rowHasMissing_predRow_none gc hgc, survivingRows, List.filterMap_cons]
    simpa [survivingRows] using kept_eq_surviving gc hgc ms ws
  | some ps :: ms, w :: ws => by
    simp only [List.map_cons, List.zip_cons_cons, List.filter_cons,
      rowHasMissing_predRow_some gc ps, survivingRows, List.filterMap_cons]
    simpa [predRow, survivingRows] using kept_eq_surviving gc hgc ms ws

theorem mapped_avg_eq (gc : ℕ) (S : List (List ℚ × ℚ)) :
    (List.range gc).map (fun j =>
      ((S.map (fun s => (s.1.map some, s.2))).map
          (fun q => q.2 * (q.1.getD j none).getD 0)).sum /
        ((S.map (fun s => (s.1.map some, s.2))).map Prod.snd).sum) =
      weightedAvgRow gc S := by
  rw [weightedAvgRow]
  apply List.map_congr_left
  intro j _
  congr 1
  · rw [List.map_map]
    apply congrArg List.sum
    apply List.map_congr_left
    intro s _
    simp only [Function.comp_apply]
    rw [getD_map_some]
  · rw [List.map_map]
    rfl

/-- The full characterization of `_predict_proba` in terms of the surviving
(non-placeholder) neighbor rows; shared by the theorems for C1 and C7. -/
theorem predict_proba_characterization (gc : ℕ)
    (models : List (Option (List ℚ))) (ws : List ℚ) (hgc : 0 < gc) :
    (survivingRows models ws = [] →
      _predict_proba gc models ws = List.replicate gc none) ∧
    (survivingRows models ws ≠ [] →
      _predict_proba gc models ws =
        (weightedAvgRow gc (survivingRows models ws)).map
          (fun v => some (v / (weightedAvgRow gc (survivingRows models ws)).sum))) := by
  have hkept := kept_eq_surviving gc hgc models ws
  constructor
  · intro hs
    rw [_predict_proba, hkept, hs]
    simp
  · intro hs
    rw [_predict_proba, hkept]
    have hne : ((survivingRows models ws).map
        (fun s => (s.1.map some, s.2))).isEmpty = false := by
      simp [List.isEmpty_iff, hs]
    simp only [hne, Bool.false_eq_true, if_false]
    rw [mapped_avg_eq]

theorem idxmaxAux_replicate_none : ∀ (gc k : ℕ),
    idxmaxAux (List.replicate gc none) k none = none
  | 0, _ => rfl
  | gc + 1, k => by
    simpa [List.replicate_succ, idxmaxAux] using idxmaxAux_replicate_none gc (k + 1)

/-! ## C1 -/

/-- C1: per query point, `_predict_proba` drops neighbor probability rows
that are entirely missing; if all neighbor rows are missing the output row is
entirely missing; otherwise the output row is the kernel-weighted elementwise
average of the surviving rows (weights = the kernel weight of each surviving neighbor), re-normalized by dividing by its own sum — and whenever that sum is
nonzero the re-normalized row indeed sums to 1. -/
theorem predict_proba_row_combines_surviving (gc : ℕ)
    (models : List (Option (List ℚ))) (ws : List ℚ) (hgc : 0 < gc) :
    (survivingRows models ws = [] →
      _predict_proba gc models ws = List.replicate gc none) ∧
    (survivingRows models ws ≠ [] →
      _predict_proba gc models ws =
        (weightedAvgRow gc (survivingRows models ws)).map
          (fun v => some (v / (weightedAvgRow gc (survivingRows models ws)).sum))) ∧
    ((weightedAvgRow gc (survivingRows models ws)).sum ≠ 0 →
      ((weightedAvgRow gc (survivingRows models ws)).map
          (fun v => v / (weightedAvgRow gc (survivingRows models ws)).sum)).sum = 1) := by
  refine ⟨(predict_proba_characterization gc models ws hgc).1,
    (predict_proba_characterization gc models ws hgc).2, fun hz => ?_⟩
  rw [sum_map_div, div_self hz]

/-- Witness for C1: two surviving neighbors with weights 1 and 3 yield the
weighted average `[1/4, 3/4]`, already summing to 1. -/
theorem predict_proba_row_combines_surviving_witness :
    _predict_proba 2 [none, some [1, 0], some [0, 1]] [5, 1, 3] =
      [some (1 / 4), some (3 / 4)] := by
  have h := (predict_proba_row_combines_surviving 2 [none, some [1, 0], some [0, 1]]
    [5, 1, 3] (by norm_num)).2.1 (by decide)
  rw [h]
  have hsurv : survivingRows [none, some [1, 0], some [0, 1]] [5, 1, 3] =
      [([1, 0], 1), ([0, 1], 3)] := by decide
  rw [hsurv]
  norm_num [weightedAvgRow, List.range_succ]

/-! ## C7 -/

/-- C7: for a query point all of whose neighboring local models are no-fit
placeholders (`None`), each such neighbor contributes an all-missing
probability row, `_predict_proba` returns an entirely missing row, and
`predict` (idxmax) on that row signals missing (`none`) rather than an
arbitrary class label. -/
theorem all_skipped_neighbors_missing_row (gc : ℕ)
    (models : List (Option (List ℚ))) (ws : List ℚ) (hgc : 0 < gc)
    (hall : ∀ m ∈ models, m = none) :
    predRow gc none = List.replicate gc none ∧
    _predict_proba gc models ws = List.replicate gc none ∧
    idxmaxRow (_predict_proba gc models ws) = none := by
  have hs : survivingRows models ws = [] := by
    rw [survivingRows, List.filterMap_eq_nil_iff]
    intro p hp
    rw [hall p.1 (List.of_mem_zip hp).1]
    rfl
  have h2 := (predict_proba_characterization gc models ws hgc).1 hs
  refine ⟨rfl, h2, ?_⟩
  rw [h2, idxmaxRow, idxmaxAux_replicate_none]
  rfl

/-- Witness for C7 with two placeholder neighbors. -/
theorem all_skipped_neighbors_missing_row_witness :
    _predict_proba 2 [none, none] [1, 1] = [none, none] ∧
    idxmaxRow [none, none] = none := by
  obtain ⟨-, h2, h3⟩ :=
    all_skipped_neighbors_missing_row 2 [none, none] [1, 1] (by norm_num) (by decide)
  rw [h2] at h3
  exact ⟨by rw [h2]; rfl, h3⟩

/-! ## C4 -/

/-- C4 counterexample: a neighborhood with label counts 5 and 1 has
minority/majority ratio exactly `1/5 = min_proportion`, yet the strict `<` comparison in the source (base.py line 422) does NOT skip it — the local model
IS fitted, contradicting the claim that the boundary value is treated as
below threshold. -/
theorem min_proportion_boundary_fitted_cex :
    minorMajorRatio [0, 0, 0, 0, 0, 1] = 1 / 5 ∧
    skipDecision (1 / 5) [0, 0, 0, 0, 0, 1] = false ∧
    (_fit_local (1 / 5) constModel 0
      [⟨[], 0, 1⟩, ⟨[], 0, 1⟩, ⟨[], 0, 1⟩, ⟨[], 0, 1⟩, ⟨[], 0, 1⟩, ⟨[], 1, 1⟩]
      []).fitted = true := by
  have hc : labelCounts [0, 0, 0, 0, 0, 1] = [5, 1] := by decide
  have hr : minorMajorRatio [0, 0, 0, 0, 0, 1] = 1 / 5 := by
    rw [minorMajorRatio, hc]
    norm_num
  have hn : (([0, 0, 0, 0, 0, 1] : List ℚ).dedup).length = 2 := by decide
  have hs : skipDecision (1 / 5) [0, 0, 0, 0, 0, 1] = false := by
    rw [skipDecision]
    simp [hn, hr]
  refine ⟨hr, hs, ?_⟩
  rw [_fit_local]
  simp only [List.map_cons, List.map_nil]
  rw [hs]
  rfl

/-- C4 amended: the boundary is inclusive for FITTING, not for skipping — a
two-label neighborhood whose minority/majority ratio is exactly equal to
`min_proportion` is fitted (the `<` comparison of the source excludes the boundary
from the skip), a two-label neighborhood with ratio strictly below
`min_proportion` is skipped, and an invariant (one-label) neighborhood is
skipped; skipping emits the placeholder record (no error). -/
theorem min_proportion_guard_exclusive (minp : ℚ)
    (E : List GroupRow → List ℚ → List ℚ) (nm : ℕ) (grp : List GroupRow)
    (fx : List ℚ) :
    ((grp.map GroupRow.yv).dedup.length = 2 →
      (minorMajorRatio (grp.map GroupRow.yv) = minp →
        (_fit_local minp E nm grp fx).fitted = true) ∧
      (minorMajorRatio (grp.map GroupRow.yv) < minp →
        _fit_local minp E nm grp fx = ⟨nm, 2, false, none⟩)) ∧
    ((grp.map GroupRow.yv).dedup.length = 1 →
      _fit_local minp E nm grp fx = ⟨nm, 1, false, none⟩) := by
  constructor
  · intro h2
    have hskip : skipDecision minp (grp.map GroupRow.yv) =
        decide (minorMajorRatio (grp.map GroupRow.yv) < minp) := by
      rw [skipDecision]
      simp [h2]
    constructor
    · intro heq
      rw [_fit_local, hskip, heq]
      simp
    · intro hlt
      rw [_fit_local, hskip]
      simp only [decide_eq_true hlt, if_true]
      rw [h2]
  · intro h1
    have hskip : skipDecision minp (grp.map GroupRow.yv) = true := by
      rw [skipDecision]
      simp [h1]
    rw [_fit_local, hskip]
    simp only [if_true]
    rw [h1]

/-- Witness for C4: a neighborhood with ratio 1/6 < 1/5 is skipped with the
placeholder record. -/
theorem min_proportion_guard_exclusive_witness :
    _fit_local (1 / 5) constModel 3
      [⟨[], 0, 1⟩, ⟨[], 0, 1⟩, ⟨[], 0, 1⟩, ⟨[], 0, 1⟩, ⟨[], 0, 1⟩, ⟨[], 0, 1⟩,
        ⟨[], 1, 1⟩] [] = ⟨3, 2, false, none⟩ := by
  have hc : labelCounts (([⟨[], 0, 1⟩, ⟨[], 0, 1⟩, ⟨[], 0, 1⟩, ⟨[], 0, 1⟩,
      ⟨[], 0, 1⟩, ⟨[], 0, 1⟩, ⟨[], 1, 1⟩] : List GroupRow).map GroupRow.yv) =
      [6, 1] := by decide
  refine ((min_proportion_guard_exclusive (1 / 5) constModel 3 _ []).1
    (by decide)).2 ?_
  rw [minorMajorRatio, hc]
  norm_num

/-! ## C9 -/

/-- C9: for every distance and every positive bandwidth, the boxcar kernel weight is exactly 0 or exactly 1: it is 1 when distance < bandwidth and 0
when distance ≥ bandwidth (hard cutoff, including equality at the boundary). -/
theorem boxcar_zero_one_cutoff (d bw : ℚ) (h : 0 < bw) :
    (_boxcar d bw = 0 ∨ _boxcar d bw = 1) ∧
    (d < bw → _boxcar d bw = 1) ∧ (bw ≤ d → _boxcar d bw = 0) := by
  refine ⟨?_, fun hd => ?_, fun hd => ?_⟩
  · rw [_boxcar]; split
    · exact Or.inr rfl
    · exact Or.inl rfl
  · rw [_boxcar, if_pos hd]
  · rw [_boxcar, if_neg (not_lt.mpr hd)]

/-- Witness for C9 at distance 0 and 2 with bandwidth 1. -/
theorem boxcar_zero_one_cutoff_witness : _boxcar 0 1 = 1 ∧ _boxcar 2 1 = 0 :=
  ⟨(boxcar_zero_one_cutoff 0 1 (by norm_num)).2.1 (by norm_num),
   (boxcar_zero_one_cutoff 2 1 (by norm_num)).2.2 (by norm_num)⟩

/-! ## C6 -/

/-- C6 counterexample: at fit time (base.py line 226) the adaptive per-group
bandwidth is the raw group maximum with NO additive epsilon — for a group
whose maximum neighbor distance is 0 the kernel bandwidth is exactly 0, not a
positive epsilon-shifted value, so the clause "in both the fit-time
adjacency construction and the predict-time query variant" is false for the
fit-time path. -/
theorem fit_adaptive_no_epsilon_cex :
    adaptiveFitBandwidth [(0, 0), (0, 0)] = [0, 0] ∧
    ¬ 0 < (adaptiveFitBandwidth [(0, 0), (0, 0)]).getD 0 1 := by
  have h : adaptiveFitBandwidth [(0, 0), (0, 0)] = [0, 0] := by
    simp [adaptiveFitBandwidth, groupMaxAt]
  exact ⟨h, by rw [h]; norm_num⟩

/-- C6 amended: only the predict-time query variant adds the epsilon, and it
adds `1e-6` to every per-group bandwidth (in particular to zero-max-distance
groups), so every predict-time kernel bandwidth is strictly positive and the
distance/bandwidth division of the kernel never divides by zero there; the
fit-time adjacency construction uses the raw per-group maximum, which is 0
for a degenerate group (see the counterexample). -/
theorem query_adaptive_bandwidth_positive (rows : List (ℕ × ℚ)) (b : ℚ)
    (hb : b ∈ adaptiveQueryBandwidth rows) : 0 < b := by
  rw [adaptiveQueryBandwidth] at hb
  obtain ⟨r, _, rfl⟩ := List.mem_map.mp hb
  have h0 : 0 ≤ groupMaxAt rows r.1 := foldr_max_nonneg _
  have he : (0 : ℚ) < 1 / 1000000 := by norm_num
  linarith

/-- Witness for C6: the query-time bandwidth of a degenerate
(max-distance-0) singleton group is positive. -/
theorem query_adaptive_bandwidth_positive_witness :
    (0 : ℚ) < 1 / 1000000 ∧
      ((1 : ℚ) / 1000000) ∈ adaptiveQueryBandwidth [(0, 0)] := by
  have hmem : ((1 : ℚ) / 1000000) ∈ adaptiveQueryBandwidth [(0, 0)] := by
    simp [adaptiveQueryBandwidth, groupMaxAt]
  exact ⟨query_adaptive_bandwidth_positive [(0, 0)] _ hmem, hmem⟩

/-! ## C8 -/

/-! ## C5 -/

theorem locFocal_error_shape (adj : List AdjRow) (labels : List ℕ)
    (e : FitError) (h : locFocal adj labels = Except.error e) :
    e = FitError.keyError := by
  rw [locFocal] at h
  split at h
  · simp at h
  · injection h with h2
    exact h2.symm

theorem _batch_fit_error_shape (strict : Option Bool) (minp : ℚ)
    (E : List GroupRow → List ℚ → List ℚ) (X : List (List ℚ)) (y : List ℚ)
    (idx : List (ℕ × ℕ)) (ws : List ℚ) (Xf : List (List ℚ)) (e : FitError)
    (h : _batch_fit strict minp E X y idx ws Xf = Except.error e) :
    ∃ fs, e = FitError.invariantError fs := by
  rw [_batch_fit] at h
  split at h
  · injection h with h2
    exact ⟨_, h2.symm⟩
  · simp at h

theorem runBatches_ne_nonBinary (strict : Option Bool) (minp : ℚ)
    (E : List GroupRow → List ℚ → List ℚ) (X : List (List ℚ)) (y : List ℚ)
    (adj : List AdjRow) : ∀ (chunks : List (List ℕ)),
    (runBatches strict minp E X y adj chunks).2 ≠ some FitError.nonBinaryError
  | [] => by simp [runBatches]
  | bi :: rest => by
    rw [runBatches]
    split
    · rename_i e heq
      rw [locFocal_error_shape adj bi e heq]
      simp
    · split
      · rename_i e2 heq2
        obtain ⟨fs, rfl⟩ := _batch_fit_error_shape _ _ _ _ _ _ _ _ _ heq2
        simp
      · simpa using runBatches_ne_nonBinary strict minp E X y adj rest

/-- C5 counterexample: a target with only ONE distinct value (all zeros)
passes the `_is_binary` subset check, so `fit` proceeds without error —
producing skip-placeholder records instead of raising — contradicting the
claim that a single-distinct-value target raises. -/
theorem single_valued_target_accepted_cex :
    fitTrace (some false) 1 constModel none [[0], [0], [0]] [0, 0, 0]
      [⟨0, 1, 1⟩, ⟨1, 0, 1⟩, ⟨2, 0, 1⟩] =
      ([⟨0, 1, false, none⟩, ⟨1, 1, false, none⟩, ⟨2, 1, false, none⟩], none) ∧
    (([0, 0, 0] : List ℚ).dedup).length = 1 := by
  constructor
  · decide
  · decide

/-- C5 amended: `fit` checks — before any graph construction or local
fitting — that every target value is boolean or in {0, 1} (a SUBSET check,
not an exactly-two-distinct-values check): any value outside {0, 1} raises
the binary-target error with no records produced, a target whose values lie
in {0, 1} never raises that error, and in particular a constant 0/1 target
is accepted (its neighborhoods are then handled by the invariant-target
policy, not by this check). -/
theorem binary_check_subset_semantics (strict : Option Bool) (minp : ℚ)
    (E : List GroupRow → List ℚ → List ℚ) (bs : Option ℕ) (X : List (List ℚ))
    (y : List ℚ) (adj : List AdjRow) :
    (_is_binary y = true ↔ ∀ v ∈ y, v = 0 ∨ v = 1) ∧
    ((∃ v ∈ y, ¬(v = 0 ∨ v = 1)) →
      fitTrace strict minp E bs X y adj = ([], some FitError.nonBinaryError)) ∧
    (_is_binary y = true →
      (fitTrace strict minp E bs X y adj).2 ≠ some FitError.nonBinaryError) := by
  have hiff : _is_binary y = true ↔ ∀ v ∈ y, v = 0 ∨ v = 1 := by
    rw [_is_binary, List.all_eq_true]
    simp
  refine ⟨hiff, fun hex => ?_, fun hbin => ?_⟩
  · have hnot : ¬ ∀ v ∈ y, v = 0 ∨ v = 1 := by
      obtain ⟨v, hv, hnv⟩ := hex
      exact fun hall => hnv (hall v hv)
    have hfalse : _is_binary y = false :=
      Bool.eq_false_iff.mpr (fun h => hnot (hiff.mp h))
    rw [fitTrace, hfalse]
    rfl
  · rw [fitTrace, hbin]
    simp only [Bool.not_true, Bool.false_eq_true, if_false]
    split
    · split
      · rename_i e heq
        obtain ⟨fs, rfl⟩ := _batch_fit_error_shape _ _ _ _ _ _ _ _ _ heq
        simp
      · simp
    · exact runBatches_ne_nonBinary strict minp E X y adj _

/-- Witness for C5: a target containing the value 2 makes `fit` raise the
binary-target error before anything is fitted. -/
theorem binary_check_subset_semantics_witness :
    fitTrace (some false) 1 constModel none [[0]] [2] [] =
      ([], some FitError.nonBinaryError) := by
  refine (binary_check_subset_semantics (some false) 1 constModel none [[0]]
    [2] []).2.1 ?_
  exact ⟨2, by decide, by norm_num⟩

/-! ## C8 -/

/-- C8 counterexample: after `fit` with `keep_models=False`, calling
`predict_proba` fails with the `AttributeError` for the never-assigned
`self._geometry` attribute (a missing-attribute crash), not with the
dedicated "prediction is unsupported" error the claim requires. -/
theorem keep_models_false_attribute_error_cex :
    predict_proba_top (fitAttrs false (fun _ => none)) 2 [[0]] [] [] [] =
      Except.error (PredictError.attributeMissing "_geometry") ∧
    PredictError.attributeMissing "_geometry" ≠
      PredictError.predictionUnsupported := by
  refine ⟨rfl, by simp⟩

/-- C8 amended: when `keep_models=False`, `fit` stores no local models
(`self.local_models` is never assigned) and every later `predict` /
`predict_proba` call fails fast — before any prediction work — but with the
unintentional `AttributeError` on the missing `_geometry` attribute rather
than with a dedicated error message saying prediction is unsupported. -/
theorem keep_models_false_predict_fails
    (models : ℕ → Option (List ℚ → List ℚ)) (gc : ℕ) (Xq : List (List ℚ))
    (ids lids : List ℕ) (ds : List ℚ) :
    (fitAttrs false models).local_models = none ∧
    predict_proba_top (fitAttrs false models) gc Xq ids lids ds =
      Except.error (PredictError.attributeMissing "_geometry") := by
  constructor
  · rfl
  · rfl

/-! ## C10 -/

theorem runSplitAux_ne_nil {α : Type} : ∀ (pairs : List (ℕ × α)),
    runSplitAux pairs ≠ []
  | [] => by simp [runSplitAux]
  | [(_, _)] => by simp [runSplitAux]
  | (i, x) :: (j, y) :: rest => by
    rw [runSplitAux]
    split <;> simp

theorem runSplitAux_length {α : Type} : ∀ (ids : List ℕ) (xs : List α),
    ids.length = xs.length → (runSplitAux (ids.zip xs)).length = runsLen ids
  | [], [], _ => rfl
  | [], _ :: _, h => by simp at h
  | _ :: _, [], h => by simp at h
  | [_], _ :: [], _ => rfl
  | [_], _ :: _ :: _, h => by simp at h
  | _ :: _ :: _, _ :: [], h => by simp at h
  | i :: j :: ids, x :: y :: xs, h => by
    have hr : (j :: ids).length = (y :: xs).length := by simpa using h
    have ih := runSplitAux_length (j :: ids) (y :: xs) hr
    have hne := runSplitAux_ne_nil ((j :: ids).zip (y :: xs))
    simp only [List.zip_cons_cons] at ih hne ⊢
    rw [runSplitAux, runsLen]
    split
    · cases hx : runSplitAux ((j, y) :: ids.zip xs) with
      | nil => exact absurd hx hne
      | cons c cs =>
        rw [hx] at ih
        simp at ih ⊢
        omega
    · simp [ih]
      omega

theorem runsLen_sorted_dedup : ∀ (ids : List ℕ), ids ≠ [] →
    List.Sorted (· ≤ ·) ids → runsLen ids = ids.dedup.length
  | [], h, _ => absurd rfl h
  | [i], _, _ => by simp [runsLen]
  | i :: j :: ids, _, hs => by
    have hcons := List.sorted_cons.mp hs
    have ih := runsLen_sorted_dedup (j :: ids) (by simp) hcons.2
    by_cases hij : i = j
    · subst hij
      rw [runsLen, List.dedup_cons_of_mem (List.mem_cons_self i ids)]
      simp [ih]
    · have hnot : i ∉ j :: ids := by
        intro hmem
        rcases List.mem_cons.mp hmem with h1 | h2
        · exact hij h1
        · have hji : j ≤ i := (List.sorted_cons.mp hcons.2).1 i h2
          have hij2 : i ≤ j := hcons.1 j (List.mem_cons_self j ids)
          exact hij (le_antisymm hij2 hji)
      rw [runsLen, List.dedup_cons_of_not_mem hnot]
      simp [ih, hij]
      omega

theorem dedup_length_lt (ids : List ℕ) (nq q : ℕ) (hbound : ∀ i ∈ ids, i < nq)
    (hq : q < nq) (hmiss : q ∉ ids) : ids.dedup.length < nq := by
  have hnodup := List.nodup_dedup ids
  have hsub : ids.dedup.toFinset ⊆ (Finset.range nq).erase q := by
    intro a ha
    rw [List.mem_toFinset, List.mem_dedup] at ha
    rw [Finset.mem_erase, Finset.mem_range]
    exact ⟨fun hq2 => hmiss (hq2 ▸ ha), hbound a ha⟩
  calc ids.dedup.length = ids.dedup.toFinset.card :=
        (List.toFinset_card_of_nodup hnodup).symm
    _ ≤ ((Finset.range nq).erase q).card := Finset.card_le_card hsub
    _ = nq - 1 := by
        rw [Finset.card_erase_of_mem (Finset.mem_range.mpr hq), Finset.card_range]
    _ < nq := by omega

/-- C10 counterexample: a singleton query set none of whose points has any
training point within the bandwidth produces an EMPTY hit list, which
`np.split` turns into exactly one (empty) neighbor group — the strict zip
then passes (1 chunk vs 1 query row) and the call returns the all-missing
row instead of raising, contradicting the claim that any query set
containing a hitless query point raises. -/
theorem fixed_predict_singleton_empty_cex :
    predict_proba_top ⟨some (fun _ => none), true⟩ 2 [[0]] [] [] [] =
      Except.ok [[none, none]] := by
  rfl

/-- C10 amended: in fixed mode, if some query point has no training point
within the bandwidth then the per-query group count no longer matches the
query row count and the strict zip raises — EXCEPT in the degenerate case of
a query set with no hits at all and exactly one query row, where `np.split`
of the empty hit list yields one empty group, the strict zip passes, and the
call returns the all-missing row for that query point. -/
theorem fixed_predict_strict_zip_guard (store : ℕ → Option (List ℚ → List ℚ))
    (gc : ℕ) (Xq : List (List ℚ)) (ids lids : List ℕ) (ds : List ℚ) :
    (ids.length = lids.length → List.Sorted (· ≤ ·) ids →
      (∀ i ∈ ids, i < Xq.length) → (∃ q, q < Xq.length ∧ q ∉ ids) →
      (ids ≠ [] ∨ Xq.length ≠ 1) →
      predict_proba_top ⟨some store, true⟩ gc Xq ids lids ds =
        Except.error PredictError.zipStrictMismatch) ∧
    (∀ x, predict_proba_top ⟨some store, true⟩ gc [x] [] [] [] =
      Except.ok [List.replicate gc none]) := by
  constructor
  · intro hlen hsort hbound hmiss hcase
    obtain ⟨q, hq, hqm⟩ := hmiss
    have hne : (npSplitRuns ids lids).length ≠ Xq.length := by
      cases hid : ids with
      | nil =>
        rcases hcase with h1 | h1
        · exact absurd hid h1
        · subst hid
          simpa [npSplitRuns, runSplitAux] using fun h => h1 h.symm
      | cons a as =>
        rw [← hid]
        rw [npSplitRuns, runSplitAux_length ids lids hlen,
          runsLen_sorted_dedup ids (by simp [hid]) hsort]
        have h2 : ids.dedup.length < Xq.length :=
          dedup_length_lt ids Xq.length q hbound hq hqm
        omega
    rw [predict_proba_top]
    simp [hne]
  · intro x
    rw [predict_proba_top]
    simp [npSplitRuns, runSplitAux, mapE, predictRowM, _predict_proba]

/-- Witness for C10: a hitless query point among two query rows raises the
strict-zip error, while a singleton hitless query set returns the
all-missing row. -/
theorem fixed_predict_strict_zip_guard_witness :
    predict_proba_top ⟨some (fun _ => none), true⟩ 2 [[0], [1]] [0, 0] [0, 1]
      [1, 1] = Except.error PredictError.zipStrictMismatch ∧
    predict_proba_top ⟨some (fun _ => none), true⟩ 2 [[5]] [] [] [] =
      Except.ok [[none, none]] := by
  constructor
  · exact (fixed_predict_strict_zip_guard (fun _ => none) 2 [[0], [1]] [0, 0]
      [0, 1] [1, 1]).1 (by decide) (by decide) (by decide)
      ⟨1, by norm_num, by decide⟩ (Or.inl (by simp))
  · have h := (fixed_predict_strict_zip_guard (fun _ => none) 2 [[0], [1]]
      [0, 0] [0, 1] [1, 1]).2 [5]
    rw [show List.replicate 2 (none : Option ℚ) = [none, none] from rfl] at h
    exact h

/-! ## C2 and C3: batching lemmas -/

theorem mem_catMap {α : Type} (f : ℕ → List α) (L : List ℕ) (a : α) :
    a ∈ catMap f L ↔ ∃ l ∈ L, a ∈ f l := by
  induction L with
  | nil => simp [catMap]
  | cons l ls ih => simp [catMap, ih]

theorem filter_catMap {α : Type} (p : α → Bool) (f : ℕ → List α) (L : List ℕ) :
    (catMap f L).filter p = catMap (fun l => (f l).filter p) L := by
  induction L with
  | nil => rfl
  | cons l ls ih => simp [catMap, List.filter_append, ih]

theorem map_catMap {α β : Type} (g : α → β) (f : ℕ → List α) (L : List ℕ) :
    (catMap f L).map g = catMap (fun l => (f l).map g) L := by
  induction L with
  | nil => rfl
  | cons l ls ih => simp [catMap, ih]

theorem catMap_congr {α : Type} (f g : ℕ → List α) (L : List ℕ)
    (h : ∀ l ∈ L, f l = g l) : catMap f L = catMap g L := by
  induction L with
  | nil => rfl
  | cons l ls ih =>
    rw [catMap, catMap, h l (List.mem_cons_self l ls),
      ih (fun l2 hl2 => h l2 (List.mem_cons_of_mem l hl2))]

theorem catMap_eq_nil {α : Type} (f : ℕ → List α) (L : List ℕ)
    (h : ∀ l ∈ L, f l = []) : catMap f L = [] := by
  induction L with
  | nil => rfl
  | cons l ls ih =>
    rw [catMap, h l (List.mem_cons_self l ls),
      ih (fun l2 hl2 => h l2 (List.mem_cons_of_mem l hl2))]
    rfl

theorem catMap_single {α : Type} (T : ℕ → List α) (L : List ℕ) (f : ℕ)
    (hnd : L.Nodup) (hf : f ∈ L) :
    catMap (fun l => if l = f then T l else []) L = T f := by
  induction L with
  | nil => simp at hf
  | cons l ls ih =>
    rcases List.mem_cons.mp hf with rfl | hmem
    · rw [catMap, if_pos rfl]
      have hnil : catMap (fun l2 => if l2 = f then T l2 else []) ls = [] := by
        apply catMap_eq_nil
        intro l2 hl2
        have hne : l2 ≠ f := fun he => (List.nodup_cons.mp hnd).1 (he ▸ hl2)
        rw [if_neg hne]
      rw [hnil]
      simp
    · have hlf : l ≠ f := by
        rintro rfl
        exact (List.nodup_cons.mp hnd).1 hmem
      rw [catMap, if_neg hlf, ih (List.nodup_cons.mp hnd).2 hmem]
      rfl

theorem tagRows_map (X : List (List ℚ)) (y : List ℚ) (sub : List AdjRow) :
    tagRows X y (sub.map (fun r => (r.focal, r.neighbor)))
      (sub.map AdjRow.weight) =
      sub.map (fun r => (r.focal, mkRow X y r.neighbor r.weight)) := by
  rw [tagRows, List.zip_map', List.map_map]
  rfl

theorem tag_filter_block (X : List (List ℚ)) (y : List ℚ) (adj : List AdjRow)
    (l : ℕ) :
    (adj.filter (fun r => r.focal == l)).map
        (fun r => (r.focal, mkRow X y r.neighbor r.weight)) =
      (adj.filter (fun r => r.focal == l)).map
        (fun r => (l, mkRow X y r.neighbor r.weight)) := by
  apply List.map_congr_left
  intro r hr
  have heq : r.focal = l := by simpa using (List.mem_filter.mp hr).2
  rw [heq]

theorem tagRows_locFocal (X : List (List ℚ)) (y : List ℚ) (adj : List AdjRow)
    (L : List ℕ) :
    tagRows X y
      ((catMap (fun l => adj.filter (fun r => r.focal == l)) L).map
        (fun r => (r.focal, r.neighbor)))
      ((catMap (fun l => adj.filter (fun r => r.focal == l)) L).map
        AdjRow.weight) =
      catMap (fun l => (adj.filter (fun r => r.focal == l)).map
        (fun r => (l, mkRow X y r.neighbor r.weight))) L := by
  rw [tagRows_map, map_catMap]
  exact catMap_congr _ _ L (fun l _ => tag_filter_block X y adj l)

theorem groupKeys_taggedSub (X : List (List ℚ)) (y : List ℚ)
    (adj : List AdjRow) (L : List ℕ) (hnd : L.Nodup)
    (hsort : List.Sorted (· ≤ ·) L)
    (hne : ∀ l ∈ L, ∃ r ∈ adj, r.focal = l) :
    groupKeys (catMap (fun l => (adj.filter (fun r => r.focal == l)).map
      (fun r => (l, mkRow X y r.neighbor r.weight))) L) = L := by
  rw [groupKeys]
  have hmem : ∀ a : ℕ,
      (a ∈ ((catMap (fun l => (adj.filter (fun r => r.focal == l)).map
        (fun r => (l, mkRow X y r.neighbor r.weight))) L).map Prod.fst)) ↔
      a ∈ L := by
    intro a
    rw [map_catMap]
    rw [mem_catMap]
    constructor
    · rintro ⟨l, hl, hal⟩
      rw [List.map_map] at hal
      obtain ⟨r, _, rfl⟩ := List.mem_map.mp hal
      exact hl
    · intro haL
      refine ⟨a, haL, ?_⟩
      obtain ⟨r, hr, hfoc⟩ := hne a haL
      rw [List.map_map]
      apply List.mem_map.mpr
      refine ⟨r, List.mem_filter.mpr ⟨hr, by simp [hfoc]⟩, rfl⟩
  have hperm : List.Perm (((catMap (fun l =>
      (adj.filter (fun r => r.focal == l)).map
        (fun r => (l, mkRow X y r.neighbor r.weight))) L).map Prod.fst).dedup)
      L := by
    apply List.perm_of_nodup_nodup_toFinset_eq (List.nodup_dedup _) hnd
    ext a
    simp only [List.mem_toFinset, List.mem_dedup]
    exact hmem a
  exact List.eq_of_perm_of_sorted ((List.perm_insertionSort _ _).trans hperm)
    (List.sorted_insertionSort _ _) hsort

theorem groupOf_taggedSub (X : List (List ℚ)) (y : List ℚ) (adj : List AdjRow)
    (L : List ℕ) (f : ℕ) (hnd : L.Nodup) (hf : f ∈ L) :
    groupOf (catMap (fun l => (adj.filter (fun r => r.focal == l)).map
      (fun r => (l, mkRow X y r.neighbor r.weight))) L) f =
      adjGroup X y adj f := by
  rw [groupOf, filter_catMap, map_catMap]
  have hinner : ∀ l ∈ L,
      (((adj.filter (fun r => r.focal == l)).map
        (fun r => (l, mkRow X y r.neighbor r.weight))).filter
          (fun q => q.1 == f)).map Prod.snd =
      if l = f then adjGroup X y adj f else [] := by
    intro l _
    by_cases hlf : l = f
    · subst hlf
      rw [if_pos rfl]
      rw [List.filter_eq_self.mpr (by
        intro q hq
        obtain ⟨r, _, rfl⟩ := List.mem_map.mp hq
        simp)]
      rw [List.map_map]
      rfl
    · rw [if_neg hlf]
      rw [List.filter_eq_nil_iff.mpr (by
        intro q hq
        obtain ⟨r, _, rfl⟩ := List.mem_map.mp hq
        simp [hlf])]
      rfl
  rw [catMap_congr _ _ L hinner]
  exact catMap_single (fun _ => adjGroup X y adj f) L f hnd hf

theorem groupKeys_full (X : List (List ℚ)) (y : List ℚ) (adj : List AdjRow)
    (h2 : ∀ r ∈ adj, r.focal < X.length)
    (h3 : ∀ i < X.length, ∃ r ∈ adj, r.focal = i) :
    groupKeys (adj.map (fun r => (r.focal, mkRow X y r.neighbor r.weight))) =
      List.range X.length := by
  rw [groupKeys]
  have hperm : List.Perm (((adj.map (fun r =>
      (r.focal, mkRow X y r.neighbor r.weight))).map Prod.fst).dedup)
      (List.range X.length) := by
    apply List.perm_of_nodup_nodup_toFinset_eq (List.nodup_dedup _)
      (List.nodup_range _)
    ext a
    simp only [List.mem_toFinset, List.mem_dedup, List.map_map,
      List.mem_range]
    constructor
    · intro ha
      obtain ⟨r, hr, hfr⟩ := List.mem_map.mp ha
      exact hfr ▸ h2 r hr
    · intro ha
      obtain ⟨r, hr, hfr⟩ := h3 a ha
      exact List.mem_map.mpr ⟨r, hr, hfr⟩
  exact List.eq_of_perm_of_sorted ((List.perm_insertionSort _ _).trans hperm)
    (List.sorted_insertionSort _ _) (List.sorted_le_range _)

theorem groupOf_full (X : List (List ℚ)) (y : List ℚ) (adj : List AdjRow)
    (f : ℕ) :
    groupOf (adj.map (fun r => (r.focal, mkRow X y r.neighbor r.weight))) f =
      adjGroup X y adj f := by
  rw [groupOf, List.filter_map, List.map_map]
  rfl

theorem map_getD_range {α : Type} (xs : List α) (d : α) :
    (List.range xs.length).map (fun i => xs.getD i d) = xs := by
  apply List.ext_getElem
  · simp
  · intro i h1 h2
    simp [List.getD_eq_getElem?_getD, List.getElem?_eq_getElem, h2]

theorem invariantFocals_of_keys (X : List (List ℚ)) (y : List ℚ)
    (adj : List AdjRow) (tagged : List (ℕ × GroupRow)) (L : List ℕ)
    (hkeys : groupKeys tagged = L)
    (hgrp : ∀ f ∈ L, groupOf tagged f = adjGroup X y adj f) :
    invariantFocals tagged = L.filter (invariantAt X y adj) := by
  rw [invariantFocals, hkeys]
  apply List.filter_congr
  intro f hf
  rw [hgrp f hf]
  rfl

theorem records_of_keys (minp : ℚ) (E : List GroupRow → List ℚ → List ℚ)
    (X : List (List ℚ)) (y : List ℚ) (adj : List AdjRow)
    (tagged : List (ℕ × GroupRow)) (L : List ℕ)
    (hkeys : groupKeys tagged = L)
    (hgrp : ∀ f ∈ L, groupOf tagged f = adjGroup X y adj f) :
    (((groupKeys tagged).map (fun f => (f, groupOf tagged f))).zip
      (L.map (fun j => X.getD j []))).map
        (fun p => _fit_local minp E p.1.1 p.1.2 p.2) =
      L.map (focalRecord minp E X y adj) := by
  rw [hkeys, List.zip_map', List.map_map]
  apply List.map_congr_left
  intro f hf
  simp only [Function.comp_apply]
  rw [hgrp f hf]
  rfl

theorem batch_fit_characterization (strict : Option Bool) (minp : ℚ)
    (E : List GroupRow → List ℚ → List ℚ) (X : List (List ℚ)) (y : List ℚ)
    (adj : List AdjRow) (idx : List (ℕ × ℕ)) (ws : List ℚ) (L : List ℕ)
    (hkeys : groupKeys (tagRows X y idx ws) = L)
    (hgrp : ∀ f ∈ L, groupOf (tagRows X y idx ws) f = adjGroup X y adj f) :
    _batch_fit strict minp E X y idx ws (L.map (fun j => X.getD j [])) =
      if strict = some true ∧ L.filter (invariantAt X y adj) ≠ [] then
        Except.error (FitError.invariantError (L.filter (invariantAt X y adj)))
      else Except.ok (L.map (focalRecord minp E X y adj)) := by
  rw [_batch_fit]
  rw [invariantFocals_of_keys X y adj _ L hkeys hgrp]
  split
  · rfl
  · rw [records_of_keys minp E X y adj _ L hkeys hgrp]

theorem batch_fit_chunk (strict : Option Bool) (minp : ℚ)
    (E : List GroupRow → List ℚ → List ℚ) (X : List (List ℚ)) (y : List ℚ)
    (adj : List AdjRow) (bi : List ℕ) (hnd : bi.Nodup)
    (hsort : List.Sorted (· ≤ ·) bi)
    (hne : ∀ l ∈ bi, ∃ r ∈ adj, r.focal = l) :
    _batch_fit strict minp E X y
      ((catMap (fun l => adj.filter (fun r => r.focal == l)) bi).map
        (fun r => (r.focal, r.neighbor)))
      ((catMap (fun l => adj.filter (fun r => r.focal == l)) bi).map
        AdjRow.weight)
      (bi.map (fun j => X.getD j [])) =
      if strict = some true ∧ bi.filter (invariantAt X y adj) ≠ [] then
        Except.error (FitError.invariantError (bi.filter (invariantAt X y adj)))
      else Except.ok (bi.map (focalRecord minp E X y adj)) := by
  apply batch_fit_characterization
  · rw [tagRows_locFocal]
    exact groupKeys_taggedSub X y adj bi hnd hsort hne
  · intro f hf
    rw [tagRows_locFocal]
    exact groupOf_taggedSub X y adj bi f hnd hf

theorem batch_fit_unbatched (strict : Option Bool) (minp : ℚ)
    (E : List GroupRow → List ℚ → List ℚ) (X : List (List ℚ)) (y : List ℚ)
    (adj : List AdjRow) (h2 : ∀ r ∈ adj, r.focal < X.length)
    (h3 : ∀ i < X.length, ∃ r ∈ adj, r.focal = i) :
    _batch_fit strict minp E X y (adj.map (fun r => (r.focal, r.neighbor)))
      (adj.map AdjRow.weight) X =
      if strict = some true ∧
          (List.range X.length).filter (invariantAt X y adj) ≠ [] then
        Except.error (FitError.invariantError
          ((List.range X.length).filter (invariantAt X y adj)))
      else Except.ok ((List.range X.length).map (focalRecord minp E X y adj)) := by
  have hchar := batch_fit_characterization strict minp E X y adj
    (adj.map (fun r => (r.focal, r.neighbor))) (adj.map AdjRow.weight)
    (List.range X.length)
    (by rw [tagRows_map]; exact groupKeys_full X y adj h2 h3)
    (by intro f hf; rw [tagRows_map]; exact groupOf_full X y adj f)
  rw [map_getD_range X []] at hchar
  exact hchar

theorem locFocal_ok (adj : List AdjRow) (labels : List ℕ)
    (hne : ∀ l ∈ labels, ∃ r ∈ adj, r.focal = l) :
    locFocal adj labels =
      Except.ok (catMap (fun l => adj.filter (fun r => r.focal == l)) labels) := by
  rw [locFocal, if_pos]
  rw [List.all_eq_true]
  intro l hl
  obtain ⟨r, hr, hfr⟩ := hne l hl
  exact List.any_eq_true.mpr ⟨r, hr, by simp [hfr]⟩

theorem chunkFuel_sublist (b : ℕ) : ∀ (fuel : ℕ) (l c : List ℕ),
    c ∈ chunkFuel b fuel l → c.Sublist l
  | 0, l, c => by simp [chunkFuel]
  | fuel + 1, [], c => by simp [chunkFuel]
  | fuel + 1, a :: as, c => by
    intro hc
    rw [chunkFuel] at hc
    rcases List.mem_cons.mp hc with rfl | hcr
    · exact List.take_sublist _ _
    · exact (chunkFuel_sublist b fuel ((a :: as).drop b) c hcr).trans
        (List.drop_sublist _ _)

theorem runBatches_chunkFuel (strict : Option Bool) (minp : ℚ)
    (E : List GroupRow → List ℚ → List ℚ) (X : List (List ℚ)) (y : List ℚ)
    (adj : List AdjRow) (b : ℕ)
    (h3 : ∀ i < X.length, ∃ r ∈ adj, r.focal = i) (hb : 0 < b) :
    ∀ (fuel : ℕ) (l : List ℕ), l.length ≤ fuel →
    l.Sublist (List.range X.length) →
    (runBatches strict minp E X y adj (chunkFuel b fuel l)).2 = none →
    (runBatches strict minp E X y adj (chunkFuel b fuel l)).1 =
        l.map (focalRecord minp E X y adj) ∧
      (strict = some true → l.filter (invariantAt X y adj) = [])
  | 0, l, hlen, _, _ => by
    have : l = [] := List.eq_nil_of_length_eq_zero (by omega)
    subst this
    simp [chunkFuel, runBatches]
  | fuel + 1, [], _, _, _ => by simp [chunkFuel, runBatches]
  | fuel + 1, a :: as, hlen, hsub, htr => by
    have hbi_sub : ((a :: as).take b).Sublist (List.range X.length) :=
      (List.take_sublist _ _).trans hsub
    have hbi_nd : ((a :: as).take b).Nodup :=
      (List.nodup_range X.length).sublist hbi_sub
    have hbi_sort : List.Sorted (· ≤ ·) ((a :: as).take b) :=
      (List.sorted_le_range X.length).sublist hbi_sub
    have hbi_lt : ∀ i ∈ (a :: as).take b, i < X.length := by
      intro i hi
      exact List.mem_range.mp (hbi_sub.subset hi)
    have hbi_ne : ∀ i ∈ (a :: as).take b, ∃ r ∈ adj, r.focal = i :=
      fun i hi => h3 i (hbi_lt i hi)
    have hdrop_len : ((a :: as).drop b).length ≤ fuel := by
      simp [List.length_drop]
      simp at hlen
      omega
    have hdrop_sub : ((a :: as).drop b).Sublist (List.range X.length) :=
      (List.drop_sublist _ _).trans hsub
    rw [chunkFuel] at htr ⊢
    rw [runBatches] at htr ⊢
    rw [locFocal_ok adj _ hbi_ne] at htr ⊢
    dsimp only at htr ⊢
    rw [batch_fit_chunk strict minp E X y adj _ hbi_nd hbi_sort hbi_ne]
      at htr ⊢
    by_cases hcond : strict = some true ∧
        ((a :: as).take b).filter (invariantAt X y adj) ≠ []
    · rw [if_pos hcond] at htr
      simp at htr
    · rw [if_neg hcond] at htr ⊢
      dsimp only at htr ⊢
      have htail : (runBatches strict minp E X y adj
          (chunkFuel b fuel ((a :: as).drop b))).2 = none := htr
      obtain ⟨ih1, ih2⟩ := runBatches_chunkFuel strict minp E X y adj b h3 hb
        fuel ((a :: as).drop b) hdrop_len hdrop_sub htail
      refine ⟨?_, fun hstrict => ?_⟩
      · rw [ih1, ← List.map_append, List.take_append_drop]
      · have h1 : ((a :: as).take b).filter (invariantAt X y adj) = [] := by
          by_contra hne2
          exact hcond ⟨hstrict, hne2⟩
        have h2d := ih2 hstrict
        rw [← List.take_append_drop b (a :: as), List.filter_append, h1, h2d]
        rfl

/-- C2 counterexample: batching selects adjacency rows by POSITIONAL labels
(`indices = np.arange(num_groups)` fed to `.loc`), so for an adjacency whose
focal identifiers are not the positions `0..n-1` (here: a single focal
labelled 1) the batched path raises the pandas `KeyError` of
`.loc[batch_indices]` while the unbatched run over the same adjacency
succeeds and produces one record — the clause "for every fit input and every
batch_size" of the claim is false. -/
theorem batched_fit_label_mismatch_cex :
    fitRecords (some false) 1 constModel (some 1) [[0]] [0] [⟨1, 0, 1⟩] =
      Except.error FitError.keyError ∧
    fitRecords (some false) 1 constModel none [[0]] [0] [⟨1, 0, 1⟩] =
      Except.ok [⟨1, 1, false, none⟩] := by
  constructor
  · rfl
  · rfl

/-- C2 amended: provided the focal identifiers of the adjacency are exactly the
positions `0..len(X)-1` (the default range index situation, under which
label-based `.loc` selection and positional `np.arange` slicing coincide),
any batched fit that returns records returns exactly the records of the
single unbatched run over the same adjacency, positionally identical —
batches only bound memory, they do not change the output. -/
theorem batched_fit_matches_unbatched (strict : Option Bool) (minp : ℚ)
    (E : List GroupRow → List ℚ → List ℚ) (b : ℕ) (X : List (List ℚ))
    (y : List ℚ) (adj : List AdjRow) (L : List LocalRecord)
    (h2 : ∀ r ∈ adj, r.focal < X.length)
    (h3 : ∀ i < X.length, ∃ r ∈ adj, r.focal = i)
    (h4 : fitRecords strict minp E (some b) X y adj = Except.ok L) :
    fitRecords strict minp E none X y adj = Except.ok L := by
  by_cases hb : b = 0
  · subst hb
    exact h4
  · have hbpos : 0 < b := Nat.pos_of_ne_zero hb
    rw [fitRecords] at h4 ⊢
    cases hbin : _is_binary y with
    | false =>
      rw [fitTrace, hbin] at h4
      simp at h4
    | true =>
      rw [fitTrace, hbin] at h4 ⊢
      simp only [Bool.not_true, Bool.false_eq_true, if_false,
        Option.getD_some, Option.getD_none] at h4 ⊢
      rw [if_neg hb] at h4
      simp only [if_true]
      cases htr : runBatches strict minp E X y adj
          (chunkList b (List.range X.length)) with
      | mk recs err =>
        rw [htr] at h4
        cases err with
        | some e => simp at h4
        | none =>
          have hrecs : recs = L := by simpa using h4
          subst hrecs
          have htr2 : runBatches strict minp E X y adj
              (chunkFuel b (List.range X.length).length
                (List.range X.length)) = (recs, none) := htr
          obtain ⟨hrec2, hstrictfilter⟩ := runBatches_chunkFuel strict minp E
            X y adj b h3 hbpos (List.range X.length).length
            (List.range X.length) (le_refl _) (List.Sublist.refl _)
            (by rw [htr2])
          have hL : recs = (List.range X.length).map
              (focalRecord minp E X y adj) := by
            rw [← hrec2, htr2]
          rw [batch_fit_unbatched strict minp E X y adj h2 h3]
          have hcondfalse : ¬(strict = some true ∧
              (List.range X.length).filter (invariantAt X y adj) ≠ []) := by
            rintro ⟨hstrict, hne2⟩
            exact hne2 (hstrictfilter hstrict)
          rw [if_neg hcondfalse]
          dsimp only
          rw [hL]

/-- Witness for C2: a two-focal adjacency with default positional labels,
batch size 1 — the batched result exists and the unbatched result equals
it. -/
theorem batched_fit_matches_unbatched_witness :
    fitRecords (some false) 1 constModel none [[1], [2]] [0, 1]
      [⟨0, 1, 1⟩, ⟨1, 0, 1⟩] =
      Except.ok [⟨0, 1, false, none⟩, ⟨1, 1, false, none⟩] := by
  apply batched_fit_matches_unbatched (some false) 1 constModel 1 [[1], [2]]
    [0, 1] [⟨0, 1, 1⟩, ⟨1, 0, 1⟩] _ (by decide) (by decide)
  rfl

/-! ## C3 -/

/-- C3 counterexample: with `batch_size=1` and `strict=True` on three focals
— focal 0 two-label (fitted), focals 1 and 2 invariant — the first batch
FITS the local model of focal 0 before the second batch raises, and the raised
error lists only `[1]` (the invariant focals of the aborting batch), not
every invariant focal `[1, 2]`; so "aborts before fitting anything" and
"listing every invariant focal identifier" both fail under batching. -/
theorem strict_batched_prior_fit_cex :
    fitTrace (some true) 1 constModel (some 1) [[0], [0], [0]] [0, 0, 1]
      [⟨0, 1, 1⟩, ⟨0, 2, 1⟩, ⟨1, 0, 1⟩, ⟨1, 1, 1⟩, ⟨2, 0, 1⟩, ⟨2, 1, 1⟩] =
      ([⟨0, 2, true, some [1, 1]⟩], some (FitError.invariantError [1])) := by
  have hc : labelCounts [(0 : ℚ), 1] = [1, 1] := by decide
  have hr : minorMajorRatio [(0 : ℚ), 1] = 1 := by
    rw [minorMajorRatio, hc]
    norm_num
  have hskip : skipDecision 1 [(0 : ℚ), 1] = false := by
    rw [skipDecision]
    simp [show (([0, 1] : List ℚ).dedup).length = 2 from by decide, hr]
  have hfl : _fit_local 1 constModel 0 [⟨[0], 0, 1⟩, ⟨[0], 1, 1⟩] [0] =
      ⟨0, 2, true, some [1, 1]⟩ := by
    rw [_fit_local]
    simp only [List.map_cons, List.map_nil]
    rw [hskip]
    simp [show (([0, 1] : List ℚ).dedup).length = 2 from by decide, constModel]
  have hloc0 : locFocal
      [⟨0, 1, 1⟩, ⟨0, 2, 1⟩, ⟨1, 0, 1⟩, ⟨1, 1, 1⟩, ⟨2, 0, 1⟩, ⟨2, 1, 1⟩]
      [0] = Except.ok [⟨0, 1, 1⟩, ⟨0, 2, 1⟩] := by rfl
  have hloc1 : locFocal
      [⟨0, 1, 1⟩, ⟨0, 2, 1⟩, ⟨1, 0, 1⟩, ⟨1, 1, 1⟩, ⟨2, 0, 1⟩, ⟨2, 1, 1⟩]
      [1] = Except.ok [⟨1, 0, 1⟩, ⟨1, 1, 1⟩] := by rfl
  have hbf1 : _batch_fit (some true) 1 constModel [[0], [0], [0]] [0, 0, 1]
      [(1, 0), (1, 1)] [1, 1] [[0]] =
      Except.error (FitError.invariantError [1]) := by rfl
  rw [fitTrace]
  rw [show _is_binary [0, 0, 1] = true from by decide]
  simp only [Bool.not_true, Bool.false_eq_true, if_false, Option.getD_some]
  rw [if_neg (by norm_num)]
  rw [show chunkList 1 (List.range ([[0], [0], [0]] : List (List ℚ)).length) =
    [[0], [1], [2]] from by decide]
  rw [runBatches, hloc0]
  dsimp only
  rw [show ([⟨0, 1, 1⟩, ⟨0, 2, 1⟩] : List AdjRow).map
      (fun r => (r.focal, r.neighbor)) = [(0, 1), (0, 2)] from rfl]
  rw [show ([⟨0, 1, 1⟩, ⟨0, 2, 1⟩] : List AdjRow).map AdjRow.weight = [1, 1]
    from rfl]
  have hbf0 : _batch_fit (some true) 1 constModel [[0], [0], [0]] [0, 0, 1]
      [(0, 1), (0, 2)] [1, 1]
      (([0] : List ℕ).map (fun j => ([[0], [0], [0]] : List (List ℚ)).getD j [])) =
      Except.ok [_fit_local 1 constModel 0 [⟨[0], 0, 1⟩, ⟨[0], 1, 1⟩] [0]] := by
    rw [_batch_fit]
    rw [show invariantFocals (tagRows [[0], [0], [0]] [0, 0, 1]
      [(0, 1), (0, 2)] [1, 1]) = [] from by decide]
    rw [if_neg (by simp)]
    rfl
  rw [hbf0, hfl]
  dsimp only
  rw [runBatches, hloc1]
  dsimp only
  rw [show ([⟨1, 0, 1⟩, ⟨1, 1, 1⟩] : List AdjRow).map
      (fun r => (r.focal, r.neighbor)) = [(1, 0), (1, 1)] from rfl]
  rw [show ([⟨1, 0, 1⟩, ⟨1, 1, 1⟩] : List AdjRow).map AdjRow.weight = [1, 1]
    from rfl]
  rw [show (([1] : List ℕ).map
      (fun j => ([[0], [0], [0]] : List (List ℚ)).getD j [])) = [[0]] from rfl]
  rw [hbf1]
  rfl

/-- C3 amended: in unbatched mode (`batch_size=None`) the claim holds —
`strict=True` with at least one invariant focal neighborhood raises the
invariant error listing EVERY invariant focal identifier before fitting
anything, with no records produced.  Under batching the invariant check is
per batch: fit aborts at the first batch containing an invariant focal,
listing only the invariant focals of that batch, after the local models of
earlier batches have already been fitted (see the counterexample). -/
theorem strict_unbatched_aborts_before_fitting (minp : ℚ)
    (E : List GroupRow → List ℚ → List ℚ) (X : List (List ℚ)) (y : List ℚ)
    (adj : List AdjRow) (hbin : _is_binary y = true)
    (hinv : invariantFocals (tagRows X y
      (adj.map (fun r => (r.focal, r.neighbor))) (adj.map AdjRow.weight)) ≠ []) :
    fitTrace (some true) minp E none X y adj =
      ([], some (FitError.invariantError (invariantFocals (tagRows X y
        (adj.map (fun r => (r.focal, r.neighbor)))
        (adj.map AdjRow.weight))))) := by
  rw [fitTrace, hbin]
  simp only [Bool.not_true, Bool.false_eq_true, if_false, Option.getD_none,
    if_true]
  rw [_batch_fit]
  rw [if_pos ⟨rfl, hinv⟩]

/-- Witness for C3: two invariant focals, unbatched strict fit aborts with
both listed and no records. -/
theorem strict_unbatched_aborts_before_fitting_witness :
    fitTrace (some true) 1 constModel none [[0], [0]] [0, 0]
      [⟨0, 1, 1⟩, ⟨1, 0, 1⟩] =
      ([], some (FitError.invariantError [0, 1])) := by
  have h := strict_unbatched_aborts_before_fitting 1 constModel [[0], [0]]
    [0, 0] [⟨0, 1, 1⟩, ⟨1, 0, 1⟩] (by decide) (by decide)
  rw [h]
  rw [show invariantFocals (tagRows [[0], [0]] [0, 0]
    (([⟨0, 1, 1⟩, ⟨1, 0, 1⟩] : List AdjRow).map (fun r => (r.focal, r.neighbor)))
    (([⟨0, 1, 1⟩, ⟨1, 0, 1⟩] : List AdjRow).map AdjRow.weight)) = [0, 1]
    from by decide]

end Gwlearn
